import Mathlib

/-!
Shallow embedding of the success-rate scoring engine of the Innovate
repository (logistic regression over hand-built features, synthetic
dataset generation, model persistence).  JavaScript numbers are modelled
as real numbers; quantities the source keeps exact (one-hot entries, the
audience-length feature, PRNG outputs, JSON numbers) are modelled as
rationals so they can be evaluated.
-/

namespace Innovate

/-- `sigmoid z = 1 / (1 + exp (-z))`, from the source's `sigmoid`. -/
noncomputable def sigmoid (z : ℝ) : ℝ := 1 / (1 + Real.exp (-z))

/-- `clamp01 v = max 0 (min 1 v)`, from the source's `clamp01`. -/
noncomputable def clamp01 (v : ℝ) : ℝ := max 0 (min 1 v)

/-- Funding normalization `log (1 + max 0 x) / log (1 + 1e6)`, from the
source's `logNormalize`. -/
noncomputable def logNormalize (x : ℝ) : ℝ :=
  Real.log (1 + max 0 x) / Real.log (1 + 1000000)

/-- ASCII lowercasing of one character, modelling what
`String.prototype.toLowerCase` does on the ASCII-only strings this
engine compares (category and location tags). -/
def charLower (c : Char) : Char :=
  if 'A' ≤ c ∧ c ≤ 'Z' then Char.ofNat (c.toNat + 32) else c

/-- ASCII lowercasing of a string (`value.toLowerCase()` in the source). -/
def jsLower (s : String) : String := String.mk (s.data.map charLower)

/-- JS `a || b` for a possibly-absent string `a`: the empty string and
`undefined` are falsy, anything else yields `a` itself. -/
def jsOrStr : Option String → String → String
  | some s, dflt => if s = "" then dflt else s
  | none, dflt => dflt

/-- The closed category value set (`CATEGORY_VALUES`). -/
def CATEGORY_VALUES : List String :=
  ["agriculture", "education", "healthcare", "technology", "infrastructure", "other"]

/-- The closed location value set (`LOCATION_VALUES`). -/
def LOCATION_VALUES : List String :=
  ["urban", "suburban", "rural", "coastal", "inland", "unknown"]

/-- One-hot encoder (`oneHot`): lowercase the (possibly absent) input,
look its index up in `values` (`indexOf`, which yields `values.length`
here where JS yields `-1`), select that index when found and the last
index otherwise, and emit the 0/1 indicator list.  The source maps over
`values` using only the position `i`, which is `List.range`. -/
def oneHot (value : Option String) (values : List String) : List ℚ :=
  let s := jsLower (value.getD "")
  let idx := values.indexOf s
  let sel := if idx < values.length then idx else values.length - 1
  (List.range values.length).map fun i => if i = sel then 1 else 0

/-- The raw input record handed to the scoring engine; optional fields
model JS `undefined`.  `location` is the idea's own declared location,
used as a fall-back by `normalizeInput`. -/
structure IdeaInput where
  category : Option String
  requiredFunding : ℝ
  targetAudience : Option String
  authorLocation : Option String
  location : Option String

/-- The normalized signal consumed by `buildFeatures`. -/
structure IdeaSignal where
  category : Option String
  requiredFunding : ℝ
  targetAudience : Option String
  authorLocation : Option String

/-- The audience-length feature `min 1 (length / 200)` from
`buildFeatures` (`(input.targetAudience || '').length`). -/
def audienceFeature (ta : Option String) : ℚ :=
  min 1 (((ta.getD "").length : ℚ) / 200)

/-- Cast an exact 0/1-valued rational list into the real-valued feature
vector entry-by-entry. -/
def castList (l : List ℚ) : List ℝ := List.map (fun q : ℚ => (q : ℝ)) l

/-- Feature vector layout from `buildFeatures`: category one-hot block,
log-normalized funding, capped audience length, location one-hot block. -/
noncomputable def buildFeatures (input : IdeaSignal) : List ℝ :=
  castList (oneHot input.category CATEGORY_VALUES)
    ++ [logNormalize input.requiredFunding, (audienceFeature input.targetAudience : ℝ)]
    ++ castList (oneHot input.authorLocation LOCATION_VALUES)

/-- One step of the `mulberry32` PRNG: the closure state `a` (always
used modulo 2^32 by the JS bitwise coercions) advances by `0x6D2B79F5`,
and the mixed 32-bit output is divided by 2^32. -/
def mulberry32Next (a : ℕ) : ℕ × ℚ :=
  let a2 := (a + 0x6D2B79F5) % 4294967296
  let t1 := ((a2 ^^^ (a2 >>> 15)) * (a2 ||| 1)) % 4294967296
  let imulv := ((t1 ^^^ (t1 >>> 7)) * (t1 ||| 61)) % 4294967296
  let t2 := t1 ^^^ ((t1 + imulv) % 4294967296)
  let out := t2 ^^^ (t2 >>> 14)
  (a2, (out : ℚ) / 4294967296)

/-- `Math.floor(r * n)` for a PRNG output `r` and a natural bound. -/
def floorMulNat (r : ℚ) (n : ℕ) : ℕ := (⌊r * (n : ℚ)⌋).toNat

/-- Word vocabulary of `randomAudience`. -/
def AUDIENCE_WORDS : List String :=
  ["youth", "farmers", "smes", "patients", "developers", "teachers",
   "commuters", "tourists", "parents", "seniors"]

/-- Target-length choices of `randomAudience`. -/
def AUDIENCE_LENGTHS : List ℕ := [20, 60, 120, 180]

/-- The word-sampling loop of `randomAudience`: draw `k` words from the
vocabulary, threading the PRNG state. -/
def randomAudienceWords : ℕ → ℕ → List String × ℕ
  | 0, s => ([], s)
  | k + 1, s =>
      let (s1, r) := mulberry32Next s
      let w := AUDIENCE_WORDS.getD (floorMulNat r AUDIENCE_WORDS.length) ""
      let (ws, s2) := randomAudienceWords k s1
      (w :: ws, s2)

/-- `randomAudience(rand)`: pick a target length, then `len / 6` words,
joined by single spaces. -/
def randomAudience (s : ℕ) : String × ℕ :=
  let (s1, r) := mulberry32Next s
  let len := AUDIENCE_LENGTHS.getD (floorMulNat r AUDIENCE_LENGTHS.length) 20
  let (ws, s2) := randomAudienceWords (len / 6) s1
  (String.intercalate " " ws, s2)

/-- Per-category base constant of the hidden labelling rule
(`categoryBase`). -/
def categoryBase (category : Option String) : ℚ :=
  let c := jsLower (category.getD "")
  if c = "technology" then 1.0
  else if c = "healthcare" then 0.8
  else if c = "education" then 0.6
  else if c = "infrastructure" then 0.4
  else if c = "agriculture" then 0.5
  else 0.3

/-- Per-location base constant of the hidden labelling rule
(`locationBase`). -/
def locationBase (loc : Option String) : ℚ :=
  let c := jsLower (loc.getD "")
  if c = "urban" then 0.5
  else if c = "suburban" then 0.35
  else if c = "coastal" then 0.3
  else if c = "inland" then 0.15
  else if c = "rural" then 0.1
  else 0.0

/-- One raw sampled row of the synthetic dataset (`rawRows`). -/
structure RawRow where
  category : String
  authorLocation : String
  requiredFunding : ℕ
  targetAudience : String
  success : ℕ

/-- One iteration of the `generateSyntheticDataset` loop: sample the
four fields, build features, evaluate the hidden rule plus noise, and
produce the thresholded label, returning the advanced PRNG state. -/
noncomputable def sampleOne (s : ℕ) : (List ℝ × ℕ × RawRow) × ℕ :=
  let (s1, r1) := mulberry32Next s
  let category := CATEGORY_VALUES.getD (floorMulNat r1 CATEGORY_VALUES.length) ""
  let (s2, r2) := mulberry32Next s1
  let authorLocation := LOCATION_VALUES.getD (floorMulNat r2 LOCATION_VALUES.length) ""
  let (s3, r3) := mulberry32Next s2
  let requiredFunding := floorMulNat r3 300000
  let (targetAudience, s4) := randomAudience s3
  let feats := buildFeatures
    ⟨some category, (requiredFunding : ℝ), some targetAudience, some authorLocation⟩
  let base : ℚ := categoryBase (some category)
    - ((requiredFunding : ℚ) / 300000) * 1.2
    + min 1 ((targetAudience.length : ℚ) / 200) * 0.6
    + locationBase (some authorLocation)
  let (s5, rn) := mulberry32Next s4
  let noisy := base + (rn - 0.5) * 0.3
  let prob := sigmoid ((noisy : ℚ) : ℝ)
  let label : ℕ := if (0.5 : ℝ) < prob then 1 else 0
  ((feats, label, ⟨category, authorLocation, requiredFunding, targetAudience, label⟩), s5)

/-- The sampling loop of `generateSyntheticDataset`, threading the PRNG
state and collecting `X`, `y` and the raw rows in order. -/
noncomputable def genAux : ℕ → ℕ → List (List ℝ) × List ℕ × List RawRow
  | 0, _ => ([], [], [])
  | k + 1, s =>
      let (row, s2) := sampleOne s
      let rest := genAux k s2
      (row.1 :: rest.1, row.2.1 :: rest.2.1, row.2.2 :: rest.2.2)

/-- `generateSyntheticDataset(numSamples, seed)`: a fresh `mulberry32`
stream seeded with `seed` drives the whole sampling loop. -/
noncomputable def generateSyntheticDataset (numSamples : ℕ) (seed : ℕ) :
    List (List ℝ) × List ℕ × List RawRow :=
  genAux numSamples seed

/-- Dot product as in `predictProba`'s loop over the weight indices
(weights and features have equal length everywhere the engine calls it). -/
noncomputable def dot (w x : List ℝ) : ℝ := (List.zipWith (fun a b => a * b) w x).sum

/-- `LogisticRegression.predictProba`: sigmoid of bias plus dot. -/
noncomputable def predictProba (w : List ℝ) (b : ℝ) (x : List ℝ) : ℝ :=
  sigmoid (b + dot w x)

/-- The body of the per-example loop inside one training epoch: compute
the prediction with the epoch's fixed `(w, b)`, take the error
`p - y[i]`, add `error * x[j]` into each weight gradient and `error`
into the bias gradient. -/
noncomputable def accumStep (w : List ℝ) (b : ℝ) (acc : List ℝ × ℝ)
    (d : List ℝ × ℝ) : List ℝ × ℝ :=
  let p := predictProba w b d.1
  let e := p - d.2
  (List.zipWith (fun g xj => g + e * xj) acc.1 d.1, acc.2 + e)

/-- The inner accumulation loop of one training epoch: starting from
zero gradients (`gradW` of the weight length, `gradB = 0`), run
`accumStep` over every example. -/
noncomputable def epochAccum (w : List ℝ) (b : ℝ) (data : List (List ℝ × ℝ)) :
    List ℝ × ℝ :=
  data.foldl (accumStep w b) (List.replicate w.length 0, 0)

/-- One epoch of `LogisticRegression.train`: accumulate the gradients
over all `n` examples, then apply the single `learningRate / n` update. -/
noncomputable def epochStep (lr : ℝ) (n : ℕ) (data : List (List ℝ × ℝ))
    (wb : List ℝ × ℝ) : List ℝ × ℝ :=
  let g := epochAccum wb.1 wb.2 data
  (List.zipWith (fun wj gj => wj - (lr / (n : ℝ)) * gj) wb.1 g.1,
   wb.2 - (lr / (n : ℝ)) * g.2)

/-- `LogisticRegression.train`: run `epochs` epochs over the paired
examples, where `n = X.length` as in the source. -/
noncomputable def train (lr : ℝ) (epochs : ℕ) (X : List (List ℝ)) (y : List ℝ)
    (wb : List ℝ × ℝ) : List ℝ × ℝ :=
  match epochs with
  | 0 => wb
  | e + 1 => train lr e X y (epochStep lr X.length (X.zip y) wb)

/-- Parsed JSON values as produced by `JSON.parse` (JSON numbers are
exact decimals, modelled as rationals). -/
inductive Json where
  | null
  | bool (b : Bool)
  | num (q : ℚ)
  | str (s : String)
  | arr (elems : List Json)
  | obj (fields : List (String × Json))

/-- The state of the persisted model file as `loadModel` observes it:
no file, a file `JSON.parse` rejects, or successfully parsed content. -/
inductive StoredFile where
  | absent
  | unparsable
  | content (data : Json)

/-- JS property access `data[k]` on a parsed JSON value: throws a
`TypeError` on `null`, yields the field on objects, and is `undefined`
(here `none`) on every other value. -/
def getField (j : Json) (k : String) : Except Unit (Option Json) :=
  match j with
  | .null => .error ()
  | .obj fields => .ok (fields.lookup k)
  | _ => .ok none

/-- `loadModel`: `false` (here `.ok none`) when no file exists, when
`data.weights` is not an array or `data.bias` is not a number, or when
the stored weight count differs from the live model's; the parsed
weights and bias otherwise.  `JSON.parse` failures and property access
on `null` propagate as exceptions (`.error`), exactly as in the source,
which wraps nothing in try/catch. -/
def loadModel (file : StoredFile) (expectedLen : ℕ) :
    Except Unit (Option (List Json × ℚ)) :=
  match file with
  | .absent => .ok none
  | .unparsable => .error ()
  | .content data =>
      match getField data "weights", getField data "bias" with
      | .error e, _ => .error e
      | _, .error e => .error e
      | .ok (some (.arr ws)), .ok (some (.num b)) =>
          if ws.length = expectedLen then .ok (some (ws, b)) else .ok none
      | _, _ => .ok none

/-- The JSON payload `saveModel` writes: weights, bias, and the
feature-layout fingerprint. -/
def saveModel (weights : List ℚ) (bias : ℚ) : Json :=
  Json.obj
    [("weights", Json.arr (weights.map Json.num)),
     ("bias", Json.num bias),
     ("featureOrder", Json.obj
       [("CATEGORY_VALUES", Json.arr (CATEGORY_VALUES.map Json.str)),
        ("LOCATION_VALUES", Json.arr (LOCATION_VALUES.map Json.str)),
        ("funding", Json.str "logNormalize"),
        ("audienceLength", Json.str "0..1 by /200 cap")])]

/-- The live model state: weight vector plus bias. -/
structure ModelParams where
  weights : List ℝ
  bias : ℝ

/-- `normalizeInput`: pass the signal fields through and resolve the
location as `idea.authorLocation || idea.location || 'unknown'`. -/
def normalizeInput (idea : IdeaInput) : IdeaSignal :=
  { category := idea.category
    requiredFunding := idea.requiredFunding
    targetAudience := idea.targetAudience
    authorLocation :=
      some (jsOrStr idea.authorLocation (jsOrStr idea.location "unknown")) }

/-- `predictSuccessRate`: normalize, encode, score, clamp. -/
noncomputable def predictSuccessRate (m : ModelParams) (idea : IdeaInput) : ℝ :=
  clamp01 (predictProba m.weights m.bias (buildFeatures (normalizeInput idea)))

/-- One entry of the explanation term list. -/
structure ContribTerm where
  feature : String
  weight : ℝ
  value : Option ℝ

/-- The explanation payload of `perFeatureContributions`. -/
structure Contributions where
  bias : ℝ
  terms : List ContribTerm

/-- `perFeatureContributions`: one term per active one-hot entry of the
category and location blocks, plus the two scalar terms, in source
order. -/
noncomputable def perFeatureContributions (x w : List ℝ) (b : ℝ) : Contributions :=
  let catTerms := (List.range CATEGORY_VALUES.length).filterMap fun i =>
    if x.getD i 0 = 1 then
      some ⟨"category:" ++ CATEGORY_VALUES.getD i "", w.getD i 0, none⟩
    else none
  let fundingIdx := CATEGORY_VALUES.length
  let audienceIdx := CATEGORY_VALUES.length + 1
  let locTerms := (List.range LOCATION_VALUES.length).filterMap fun i =>
    if x.getD (audienceIdx + 1 + i) 0 = 1 then
      some ⟨"authorLocation:" ++ LOCATION_VALUES.getD i "",
            w.getD (audienceIdx + 1 + i) 0, none⟩
    else none
  { bias := b
    terms := catTerms
      ++ [⟨"requiredFunding(log-normalized)", w.getD fundingIdx 0, some (x.getD fundingIdx 0)⟩,
          ⟨"targetAudienceLength(norm)", w.getD audienceIdx 0, some (x.getD audienceIdx 0)⟩]
      ++ locTerms }

/-- The standard-basis 0/1 list of length `n` with the 1 at `sel` (the
shape of every `oneHot` result). -/
def basisList (n sel : ℕ) : List ℚ :=
  (List.range n).map fun i => if i = sel then 1 else 0

/-- The index `oneHot` selects: the `indexOf` hit when the lowercased
input occurs in `values`, the last index otherwise. -/
def selIdx (value : Option String) (values : List String) : ℕ :=
  let idx := values.indexOf (jsLower (value.getD ""))
  if idx < values.length then idx else values.length - 1

/-- Modelled from the spec: the Trainer's epoch update exactly as §4.5
words it — with the epoch's starting parameters, the error of example
`i` is `predicted_probability − label`, each weight gradient is the sum
of `error × feature_value` over all examples, the bias gradient the sum
of the errors, and one update `w_j − learningRate/N × gradient_sum` (and
analogously for the bias) is applied.  Used only to compare the source's
`train` against the spec's description. -/
noncomputable def batchGradientStep (lr : ℝ) (X : List (List ℝ)) (y : List ℝ)
    (wb : List ℝ × ℝ) : List ℝ × ℝ :=
  ((List.range wb.1.length).map fun j =>
      wb.1.getD j 0 - (lr / (X.length : ℝ)) *
        ((X.zip y).map fun d => (predictProba wb.1 wb.2 d.1 - d.2) * d.1.getD j 0).sum,
   wb.2 - (lr / (X.length : ℝ)) *
     ((X.zip y).map fun d => predictProba wb.1 wb.2 d.1 - d.2).sum)

/-- The result record of `getSuccessRateExplanation` (the two constant
path strings of the source carry no model content and are omitted). -/
structure ExplanationResult where
  probability : ℝ
  features : Contributions

/-- `getSuccessRateExplanation`: normalize, encode, and return the
clamped score next to the per-feature contribution breakdown. -/
noncomputable def getSuccessRateExplanation (m : ModelParams) (idea : IdeaInput) :
    ExplanationResult :=
  let input := normalizeInput idea
  let x := buildFeatures input
  { probability := clamp01 (predictProba m.weights m.bias x)
    features := perFeatureContributions x m.weights m.bias }

/-! ## Helper lemmas -/

theorem clamp01_bounds (v : ℝ) : 0 ≤ clamp01 v ∧ clamp01 v ≤ 1 := by
  refine ⟨le_max_left 0 _, max_le zero_le_one (min_le_left 1 v)⟩

theorem oneHot_eq_basis (v : Option String) (values : List String) :
    oneHot v values = basisList values.length (selIdx v values) := rfl

theorem selIdx_lt_six (v : Option String) (values : List String)
    (h : values.length = 6) : selIdx v values < 6 := by
  simp only [selIdx]
  split <;> omega

theorem basisList_six_count (sel : ℕ) (h : sel < 6) :
    (basisList 6 sel).count 1 = 1 := by
  interval_cases sel <;> decide

theorem basisList_six_mem (sel : ℕ) (h : sel < 6) :
    ∀ q ∈ basisList 6 sel, q = 0 ∨ q = 1 := by
  interval_cases sel <;> decide

theorem oneHot_cat_count (v : Option String) :
    (oneHot v CATEGORY_VALUES).count 1 = 1 := by
  rw [oneHot_eq_basis]
  exact basisList_six_count _ (selIdx_lt_six v CATEGORY_VALUES rfl)

theorem oneHot_loc_count (v : Option String) :
    (oneHot v LOCATION_VALUES).count 1 = 1 := by
  rw [oneHot_eq_basis]
  exact basisList_six_count _ (selIdx_lt_six v LOCATION_VALUES rfl)

theorem oneHot_cat_mem (v : Option String) :
    ∀ q ∈ oneHot v CATEGORY_VALUES, q = 0 ∨ q = 1 := by
  rw [oneHot_eq_basis]
  exact basisList_six_mem _ (selIdx_lt_six v CATEGORY_VALUES rfl)

theorem oneHot_loc_mem (v : Option String) :
    ∀ q ∈ oneHot v LOCATION_VALUES, q = 0 ∨ q = 1 := by
  rw [oneHot_eq_basis]
  exact basisList_six_mem _ (selIdx_lt_six v LOCATION_VALUES rfl)

theorem audienceFeature_bounds (ta : Option String) :
    0 ≤ audienceFeature ta ∧ audienceFeature ta ≤ 1 :=
  ⟨le_min zero_le_one (by positivity), min_le_left 1 _⟩

theorem logNormalize_nonneg (x : ℝ) : 0 ≤ logNormalize x := by
  refine div_nonneg (Real.log_nonneg ?_) (Real.log_nonneg (by norm_num))
  have := le_max_left (0 : ℝ) x
  linarith

theorem logNormalize_le_one (x : ℝ) (h : x ≤ 1000000) : logNormalize x ≤ 1 := by
  rw [logNormalize, div_le_one (Real.log_pos (by norm_num))]
  refine Real.log_le_log ?_ ?_
  · have := le_max_left (0 : ℝ) x
    linarith
  · have : max 0 x ≤ 1000000 := max_le (by norm_num) h
    linarith

theorem selIdx_fallback (s : Option String) (values : List String)
    (h : jsLower (s.getD "") ∉ values) :
    selIdx s values = values.length - 1 := by
  unfold selIdx
  rw [List.indexOf_eq_length.mpr h]
  simp

/-! ## C1 -/

/-- C1: for every model state and every input, `predictSuccessRate` is
exactly the clamp into `[0, 1]` of the sigmoid of `bias + dot(weights,
features)`, and its value always lies in `[0, 1]`, degenerate inputs
included. -/
theorem predictSuccessRate_in_unit (m : ModelParams) (idea : IdeaInput) :
    predictSuccessRate m idea
        = clamp01 (sigmoid (m.bias + dot m.weights (buildFeatures (normalizeInput idea))))
      ∧ 0 ≤ predictSuccessRate m idea ∧ predictSuccessRate m idea ≤ 1 :=
  ⟨rfl, (clamp01_bounds _).1, (clamp01_bounds _).2⟩

/-! ## C9 -/

/-- C9: the funding feature `log (1 + max 0 x) / log (1 + 1e6)` is
monotonically non-decreasing on non-negative funding amounts. -/
theorem logNormalize_monotone (a b : ℝ) (ha : 0 ≤ a) (hab : a ≤ b) :
    logNormalize a ≤ logNormalize b := by
  unfold logNormalize
  have hd : (0 : ℝ) < Real.log (1 + 1000000) := Real.log_pos (by norm_num)
  have hx : (0 : ℝ) < 1 + max 0 a := by
    have := le_max_left (0 : ℝ) a
    linarith
  have hnum : Real.log (1 + max 0 a) ≤ Real.log (1 + max 0 b) := by
    apply Real.log_le_log hx
    have : max 0 a ≤ max 0 b := max_le_max le_rfl hab
    linarith
  exact div_le_div_of_nonneg_right hnum hd.le

/-- Witness for C9 at funding amounts 0 and 1. -/
theorem logNormalize_monotone_witness : logNormalize 0 ≤ logNormalize 1 :=
  logNormalize_monotone 0 1 le_rfl zero_le_one

/-! ## C10 -/

/-- C10: the probability field of `getSuccessRateExplanation` equals the
value `predictSuccessRate` returns on the same input and model state. -/
theorem explanation_probability_eq_predict (m : ModelParams) (idea : IdeaInput) :
    (getSuccessRateExplanation m idea).probability = predictSuccessRate m idea := rfl

/-! ## C6 -/

/-- C6: the synthetic dataset generator is a pure function of its count
and seed — equal seeds give identical feature vectors, labels and raw
sampled rows. -/
theorem generate_deterministic (n s₁ s₂ : ℕ) (h : s₁ = s₂) :
    generateSyntheticDataset n s₁ = generateSyntheticDataset n s₂ := by rw [h]

/-- Witness for C6 at count 3 and seed 42. -/
theorem generate_deterministic_witness :
    generateSyntheticDataset 3 42 = generateSyntheticDataset 3 42 :=
  generate_deterministic 3 42 42 rfl

/-! ## C8 -/

/-- C8: the audience feature is total, lies in [0, 1], equals
`length / 200` up to 200 characters, saturates at 1 from 200 characters
on, and treats an absent `targetAudience` as the empty string (value 0). -/
theorem audienceFeature_spec :
    (∀ ta : Option String, 0 ≤ audienceFeature ta ∧ audienceFeature ta ≤ 1)
      ∧ (∀ ta : Option String, (ta.getD "").length ≤ 200 →
          audienceFeature ta = (((ta.getD "").length : ℚ)) / 200)
      ∧ (∀ ta : Option String, 200 ≤ (ta.getD "").length → audienceFeature ta = 1)
      ∧ audienceFeature none = 0 := by
  refine ⟨audienceFeature_bounds, fun ta h => ?_, fun ta h => ?_, ?_⟩
  · refine min_eq_right ?_
    rw [div_le_one (by norm_num)]
    exact_mod_cast h
  · refine min_eq_left ?_
    rw [le_div_iff₀ (by norm_num), one_mul]
    exact_mod_cast h
  · simp [audienceFeature]

/-- Witness for C8 on the three-character audience string "abc". -/
theorem audienceFeature_spec_witness :
    audienceFeature (some "abc") = ((((some "abc" : Option String).getD "").length : ℚ)) / 200 :=
  audienceFeature_spec.2.1 (some "abc") (by decide)

/-! ## C7 -/

/-- C7: saving any model parameters and immediately loading them back
with the matching expected weight count succeeds and returns exactly the
saved weights and bias. -/
theorem save_load_roundtrip (ws : List ℚ) (b : ℚ) :
    loadModel (.content (saveModel ws b)) ws.length
      = .ok (some (ws.map Json.num, b)) := by
  simp [loadModel, saveModel, getField, List.lookup]

/-! ## C3 -/

/-- C3 counterexample: on stored content that `JSON.parse` rejects,
`loadModel` raises (the source has no try/catch) instead of returning
the non-error "absent" result the claim promises. -/
theorem loadModel_unparsable_raises :
    loadModel .unparsable 12 = .error () ∧ loadModel .unparsable 12 ≠ .ok none :=
  ⟨rfl, fun h => nomatch h⟩

/-- C3 amended: `loadModel` returns "absent" (`.ok none`) without
raising when no file exists, when parsed non-null content has a missing
or non-array `weights` or a non-number `bias`, and when the stored
weight count differs from the expected length (in particular 5 stored
weights against expected length 12); success implies the stored length
matched, and parsed non-null content never raises.  Unparsable content
— and property access on parsed `null` — raises instead of returning
"absent". -/
theorem loadModel_absent_cases :
    (∀ n, loadModel .absent n = .ok none)
      ∧ (∀ n, loadModel .unparsable n = .error ())
      ∧ (∀ n, loadModel (.content Json.null) n = .error ())
      ∧ (∀ (n : ℕ) (d : Json), d ≠ Json.null → (loadModel (.content d) n).isOk = true)
      ∧ (∀ (n : ℕ) (d : Json), d ≠ Json.null →
          ((∀ ws : List Json, getField d "weights" ≠ .ok (some (.arr ws)))
            ∨ (∀ b : ℚ, getField d "bias" ≠ .ok (some (.num b)))) →
          loadModel (.content d) n = .ok none)
      ∧ (∀ (n : ℕ) (d : Json) (ws : List Json) (b : ℚ),
          getField d "weights" = .ok (some (.arr ws)) →
          getField d "bias" = .ok (some (.num b)) →
          ws.length ≠ n → loadModel (.content d) n = .ok none)
      ∧ (∀ (n : ℕ) (d : Json) (ws : List Json) (b : ℚ),
          loadModel (.content d) n = .ok (some (ws, b)) → ws.length = n)
      ∧ loadModel
          (.content (Json.obj
            [("weights", Json.arr (List.replicate 5 (Json.num 0))),
             ("bias", Json.num 0)])) 12
          = .ok none := by
  refine ⟨fun n => rfl, fun n => rfl, fun n => rfl, ?_, ?_, ?_, ?_, rfl⟩
  · intro n d hd
    cases d with
    | null => exact absurd rfl hd
    | bool bb => rfl
    | num q => rfl
    | str s => rfl
    | arr l => rfl
    | obj f =>
        simp only [loadModel, getField]
        split
        all_goals first
          | rfl
          | (split <;> rfl)
          | simp_all
  · intro n d hd hmal
    cases d with
    | null => exact absurd rfl hd
    | bool bb => rfl
    | num q => rfl
    | str s => rfl
    | arr l => rfl
    | obj f =>
        simp only [loadModel, getField]
        split
        · simp_all
        · simp_all
        · rename_i ws b hw hb
          exfalso
          rcases hmal with hW | hB
          · exact hW ws (by simpa [getField] using hw)
          · exact hB b (by simpa [getField] using hb)
        · rfl
  · intro n d ws b hW hB hne
    cases d with
    | null => exact absurd hW (by simp [getField])
    | bool bb => exact absurd hW (by simp [getField])
    | num q => exact absurd hW (by simp [getField])
    | str s => exact absurd hW (by simp [getField])
    | arr l => exact absurd hW (by simp [getField])
    | obj f =>
        simp only [getField] at hW hB
        injection hW with hW1
        injection hB with hB1
        simp only [loadModel, getField, hW1, hB1]
        rw [if_neg hne]
  · intro n d ws b h
    cases d with
    | obj f =>
        simp only [loadModel, getField] at h
        split at h
        · simp at h
        · simp at h
        · split at h
          · rename_i hlen
            injection h with h1
            injection h1 with h2
            injection h2 with h3 h4
            subst h3
            exact hlen
          · simp at h
        · simp at h
    | null => simp [loadModel, getField] at h
    | bool bb => simp [loadModel, getField] at h
    | num q => simp [loadModel, getField] at h
    | str s => simp [loadModel, getField] at h
    | arr l => simp [loadModel, getField] at h

/-- Witness for C3 (amended) on parsed object content whose `weights`
field is a bare number. -/
theorem loadModel_absent_cases_witness :
    loadModel (.content (Json.obj [("weights", Json.num 3), ("bias", Json.num 0)])) 14
      = .ok none :=
  loadModel_absent_cases.2.2.2.2.1 14
    (Json.obj [("weights", Json.num 3), ("bias", Json.num 0)])
    (fun h => nomatch h) (Or.inl (by simp [getField]))

/-! ## C2 -/

/-- C2: the encoder is total; matching is exact on the lowercased input
(case-insensitive matching against the lowercase value sets); any input
whose lowercasing is not in the set — and an absent input — encodes like
the last entry of the set ("other" for categories, "unknown" for
locations); and every produced block is one-hot with exactly one 1. -/
theorem oneHot_total_fallback :
    (∀ s : String, jsLower s ∉ CATEGORY_VALUES →
        oneHot (some s) CATEGORY_VALUES = oneHot (some "other") CATEGORY_VALUES)
      ∧ oneHot none CATEGORY_VALUES = oneHot (some "other") CATEGORY_VALUES
      ∧ (∀ s : String, jsLower s ∉ LOCATION_VALUES →
          oneHot (some s) LOCATION_VALUES = oneHot (some "unknown") LOCATION_VALUES)
      ∧ oneHot none LOCATION_VALUES = oneHot (some "unknown") LOCATION_VALUES
      ∧ (∀ s : String, jsLower s ∈ CATEGORY_VALUES →
          oneHot (some s) CATEGORY_VALUES
            = basisList CATEGORY_VALUES.length (CATEGORY_VALUES.indexOf (jsLower s)))
      ∧ (∀ s : String, jsLower s ∈ LOCATION_VALUES →
          oneHot (some s) LOCATION_VALUES
            = basisList LOCATION_VALUES.length (LOCATION_VALUES.indexOf (jsLower s)))
      ∧ (∀ v : Option String, (oneHot v CATEGORY_VALUES).count 1 = 1)
      ∧ (∀ v : Option String, (oneHot v LOCATION_VALUES).count 1 = 1) := by
  refine ⟨?_, ?_, ?_, ?_, ?_, ?_, oneHot_cat_count, oneHot_loc_count⟩
  · intro s hs
    rw [oneHot_eq_basis, oneHot_eq_basis, selIdx_fallback _ _ hs,
      (by decide : selIdx (some "other") CATEGORY_VALUES = CATEGORY_VALUES.length - 1)]
  · rw [oneHot_eq_basis, oneHot_eq_basis,
      (by decide : selIdx none CATEGORY_VALUES = selIdx (some "other") CATEGORY_VALUES)]
  · intro s hs
    rw [oneHot_eq_basis, oneHot_eq_basis, selIdx_fallback _ _ hs,
      (by decide : selIdx (some "unknown") LOCATION_VALUES = LOCATION_VALUES.length - 1)]
  · rw [oneHot_eq_basis, oneHot_eq_basis,
      (by decide : selIdx none LOCATION_VALUES = selIdx (some "unknown") LOCATION_VALUES)]
  · intro s hs
    rw [oneHot_eq_basis]
    simp only [selIdx, Option.getD_some]
    rw [if_pos (List.indexOf_lt_length.mpr hs)]
  · intro s hs
    rw [oneHot_eq_basis]
    simp only [selIdx, Option.getD_some]
    rw [if_pos (List.indexOf_lt_length.mpr hs)]

/-- Witness for C2: "Fishing" is not a category, so it encodes like the
fallback bucket "other". -/
theorem oneHot_total_fallback_witness :
    oneHot (some "Fishing") CATEGORY_VALUES = oneHot (some "other") CATEGORY_VALUES :=
  oneHot_total_fallback.1 "Fishing" (by decide)

/-! ## C5 -/

/-- C5 counterexample: at funding 100,000,000 the funding entry of the
feature vector is `log (1 + 1e8) / log (1 + 1e6) > 1`, so not every
entry lies in `[0, 1]`. -/
theorem buildFeatures_entry_exceeds_one :
    ¬ ∀ v ∈ buildFeatures ⟨some "technology", 100000000, some "", some "urban"⟩,
        0 ≤ v ∧ v ≤ 1 := by
  intro h
  have hmem : logNormalize 100000000
      ∈ buildFeatures ⟨some "technology", 100000000, some "", some "urban"⟩ := by
    simp [buildFeatures]
  have hle := (h _ hmem).2
  have hlt : (1 : ℝ) < logNormalize 100000000 := by
    rw [logNormalize, lt_div_iff₀ (Real.log_pos (by norm_num)), one_mul]
    rw [max_eq_right (by norm_num : (0 : ℝ) ≤ 100000000)]
    exact Real.log_lt_log (by norm_num) (by norm_num)
  linarith

theorem mem_buildFeatures (sig : IdeaSignal) (v : ℝ) (hv : v ∈ buildFeatures sig) :
    (∃ q ∈ oneHot sig.category CATEGORY_VALUES, v = (q : ℝ))
      ∨ v = logNormalize sig.requiredFunding
      ∨ v = (audienceFeature sig.targetAudience : ℝ)
      ∨ ∃ q ∈ oneHot sig.authorLocation LOCATION_VALUES, v = (q : ℝ) := by
  rcases List.mem_append.mp hv with h | h
  · rcases List.mem_append.mp h with h | h
    · simp only [castList] at h
      rcases List.mem_map.mp h with ⟨q, hq, rfl⟩
      exact Or.inl ⟨q, hq, rfl⟩
    · rcases List.mem_cons.mp h with rfl | h
      · exact Or.inr (Or.inl rfl)
      · rcases List.mem_cons.mp h with rfl | h
        · exact Or.inr (Or.inr (Or.inl rfl))
        · cases h
  · simp only [castList] at h
    rcases List.mem_map.mp h with ⟨q, hq, rfl⟩
    exact Or.inr (Or.inr (Or.inr ⟨q, hq, rfl⟩))

/-- C5 amended: for every signal the category and location blocks are
one-hot (exactly one 1, all other entries 0) and every feature entry is
non-negative; provided `requiredFunding ≤ 1,000,000` — which the
unclamped funding feature needs — every entry also lies in `[0, 1]`. -/
theorem buildFeatures_invariant (sig : IdeaSignal) :
    (oneHot sig.category CATEGORY_VALUES).count 1 = 1
      ∧ (oneHot sig.authorLocation LOCATION_VALUES).count 1 = 1
      ∧ (∀ q ∈ oneHot sig.category CATEGORY_VALUES, q = 0 ∨ q = 1)
      ∧ (∀ q ∈ oneHot sig.authorLocation LOCATION_VALUES, q = 0 ∨ q = 1)
      ∧ (∀ v ∈ buildFeatures sig, 0 ≤ v)
      ∧ (sig.requiredFunding ≤ 1000000 → ∀ v ∈ buildFeatures sig, 0 ≤ v ∧ v ≤ 1) := by
  refine ⟨oneHot_cat_count _, oneHot_loc_count _, oneHot_cat_mem _,
    oneHot_loc_mem _, ?_, ?_⟩
  · intro v hv
    rcases mem_buildFeatures sig v hv with ⟨q, hq, rfl⟩ | rfl | rfl | ⟨q, hq, rfl⟩
    · rcases oneHot_cat_mem _ q hq with rfl | rfl <;> norm_num
    · exact logNormalize_nonneg _
    · exact_mod_cast (audienceFeature_bounds sig.targetAudience).1
    · rcases oneHot_loc_mem _ q hq with rfl | rfl <;> norm_num
  · intro hf v hv
    rcases mem_buildFeatures sig v hv with ⟨q, hq, rfl⟩ | rfl | rfl | ⟨q, hq, rfl⟩
    · rcases oneHot_cat_mem _ q hq with rfl | rfl <;> norm_num
    · exact ⟨logNormalize_nonneg _, logNormalize_le_one _ hf⟩
    · constructor
      · exact_mod_cast (audienceFeature_bounds sig.targetAudience).1
      · exact_mod_cast (audienceFeature_bounds sig.targetAudience).2
    · rcases oneHot_loc_mem _ q hq with rfl | rfl <;> norm_num

/-- Witness for C5 (amended): on a technology/urban signal with zero
funding, the funding entry — a member of the feature vector — is in
`[0, 1]` by the conditional conjunct. -/
theorem buildFeatures_invariant_witness :
    0 ≤ logNormalize 0 ∧ logNormalize 0 ≤ 1 :=
  (buildFeatures_invariant ⟨some "technology", 0, some "", some "urban"⟩).2.2.2.2.2
    (by norm_num) (logNormalize 0) (by simp [buildFeatures])

/-! ## C4 -/

theorem zipWith_addmul_getD :
    ∀ (a l : List ℝ) (e : ℝ) (j : ℕ), l.length = a.length →
      (List.zipWith (fun g xj => g + e * xj) a l).getD j 0
        = a.getD j 0 + e * l.getD j 0
  | [], [], e, j, _ => by simp
  | [], x :: xs, e, j, h => by simp at h
  | g :: gs, [], e, j, h => by simp at h
  | g :: gs, x :: xs, e, 0, h => by simp
  | g :: gs, x :: xs, e, j + 1, h => by
      simp only [List.zipWith_cons_cons, List.getD_cons_succ]
      exact zipWith_addmul_getD gs xs e j (by simpa using h)

theorem replicate_getD_zero (n i : ℕ) : (List.replicate n (0 : ℝ)).getD i 0 = 0 := by
  rcases lt_or_le i n with hi | hi
  · rw [List.getD_eq_getElem _ _ (by simpa using hi), List.getElem_replicate]
  · rw [List.getD_eq_default _ _ (by simpa using hi)]

theorem accumFold_spec (w : List ℝ) (b : ℝ) (data : List (List ℝ × ℝ)) :
    ∀ (acc : List ℝ × ℝ), (∀ d ∈ data, d.1.length = acc.1.length) →
      (data.foldl (accumStep w b) acc).1.length = acc.1.length
        ∧ (data.foldl (accumStep w b) acc).2
            = acc.2 + (data.map fun d => predictProba w b d.1 - d.2).sum
        ∧ ∀ j, (data.foldl (accumStep w b) acc).1.getD j 0
            = acc.1.getD j 0
              + (data.map fun d => (predictProba w b d.1 - d.2) * d.1.getD j 0).sum := by
  induction data with
  | nil => exact fun acc _ => ⟨rfl, by simp, fun j => by simp⟩
  | cons d rest ih =>
      intro acc h
      have hd : d.1.length = acc.1.length := h d (List.mem_cons_self d rest)
      have hstep : (accumStep w b acc d).1.length = acc.1.length := by
        simp [accumStep, List.length_zipWith, hd]
      have hrest : ∀ d' ∈ rest, d'.1.length = (accumStep w b acc d).1.length := by
        intro d' hd'
        rw [hstep]
        exact h d' (List.mem_cons_of_mem d hd')
      obtain ⟨l1, l2, l3⟩ := ih (accumStep w b acc d) hrest
      rw [List.foldl_cons]
      refine ⟨by rw [l1, hstep], ?_, ?_⟩
      · rw [l2]
        simp only [accumStep, List.map_cons, List.sum_cons]
        ring
      · intro j
        rw [l3 j]
        simp only [accumStep]
        rw [zipWith_addmul_getD acc.1 d.1 (predictProba w b d.1 - d.2) j hd]
        simp only [List.map_cons, List.sum_cons]
        ring

theorem epochStep_eq_batch (lr : ℝ) (X : List (List ℝ)) (y : List ℝ)
    (wb : List ℝ × ℝ) (hX : ∀ x ∈ X, x.length = wb.1.length) :
    epochStep lr X.length (X.zip y) wb = batchGradientStep lr X y wb := by
  have hdata : ∀ d ∈ X.zip y, d.1.length = wb.1.length := by
    intro d hd
    rcases d with ⟨x, yy⟩
    exact hX x (List.of_mem_zip hd).1
  obtain ⟨l1, l2, l3⟩ := accumFold_spec wb.1 wb.2 (X.zip y)
    (List.replicate wb.1.length 0, 0) (by simpa using hdata)
  have hlen : (epochAccum wb.1 wb.2 (X.zip y)).1.length = wb.1.length := by
    simpa using l1
  refine Prod.ext ?_ ?_
  · show List.zipWith _ wb.1 (epochAccum wb.1 wb.2 (X.zip y)).1 = _
    refine List.ext_getElem ?_ ?_
    · simp [List.length_zipWith, hlen, batchGradientStep]
    · intro i hi1 hi2
      rw [List.getElem_zipWith]
      have hiw : i < wb.1.length := by
        simpa [List.length_zipWith, hlen] using hi1
      have hiacc : i < (epochAccum wb.1 wb.2 (X.zip y)).1.length := by
        rw [hlen]
        exact hiw
      rw [← List.getD_eq_getElem _ 0 hiacc]
      have l3i := l3 i
      rw [replicate_getD_zero, zero_add] at l3i
      rw [show (epochAccum wb.1 wb.2 (X.zip y)).1.getD i 0
            = ((X.zip y).map fun d =>
                (predictProba wb.1 wb.2 d.1 - d.2) * d.1.getD i 0).sum from l3i]
      simp only [batchGradientStep, List.getElem_map, List.getElem_range]
      rw [List.getD_eq_getElem _ _ hiw]
  · show wb.2 - (lr / (X.length : ℝ)) * (epochAccum wb.1 wb.2 (X.zip y)).2 = _
    have l2' : (epochAccum wb.1 wb.2 (X.zip y)).2
        = ((X.zip y).map fun d => predictProba wb.1 wb.2 d.1 - d.2).sum := by
      simpa using l2
    rw [l2']
    rfl

theorem epochStep_fst_length (lr : ℝ) (X : List (List ℝ)) (y : List ℝ)
    (wb : List ℝ × ℝ) (hX : ∀ x ∈ X, x.length = wb.1.length) :
    (epochStep lr X.length (X.zip y) wb).1.length = wb.1.length := by
  have hdata : ∀ d ∈ X.zip y, d.1.length = wb.1.length := by
    intro d hd
    rcases d with ⟨x, yy⟩
    exact hX x (List.of_mem_zip hd).1
  obtain ⟨l1, _, _⟩ := accumFold_spec wb.1 wb.2 (X.zip y)
    (List.replicate wb.1.length 0, 0) (by simpa using hdata)
  simp [epochStep, List.length_zipWith, epochAccum]
  simp at l1
  omega

/-- C4: the source's `train` is exactly `epochs` iterations of the
spec-described full-batch update `batchGradientStep` — per epoch every
example's error is taken at the epoch's starting parameters, the
gradients are the sums of `error × feature` (resp. `error`), and one
single `learningRate/N`-scaled update is applied; there is no
per-example update and no early stopping. -/
theorem train_is_batch_gradient_descent (lr : ℝ) (epochs : ℕ)
    (X : List (List ℝ)) (y : List ℝ) (wb : List ℝ × ℝ)
    (hX : ∀ x ∈ X, x.length = wb.1.length) :
    train lr epochs X y wb = (batchGradientStep lr X y)^[epochs] wb := by
  induction epochs generalizing wb with
  | zero => rfl
  | succ e ih =>
      have h1 : train lr (e + 1) X y wb
          = train lr e X y (epochStep lr X.length (X.zip y) wb) := rfl
      have hX2 : ∀ x ∈ X, x.length = (epochStep lr X.length (X.zip y) wb).1.length := by
        rw [epochStep_fst_length lr X y wb hX]
        exact hX
      rw [h1, ih _ hX2, epochStep_eq_batch lr X y wb hX]
      exact (Function.iterate_succ_apply _ _ _).symm

/-- Witness for C4 on a one-example, one-weight dataset trained for two
epochs. -/
theorem train_is_batch_gradient_descent_witness :
    train 1 2 [[1]] [0] ([0], 0) = (batchGradientStep 1 [[1]] [0])^[2] ([0], 0) :=
  train_is_batch_gradient_descent 1 2 [[1]] [0] ([0], 0) (by simp)

end Innovate
